import Mathlib

/-!
Verification of the journal-transfer protocol
(`journal/protocol/journal_transfer.py`).

The Python module drives one journal-transfer session: paginated discovery
of remote block/transaction identifiers, deduplicated on-demand fetching of
missing bodies, and ordered application to the local journal.  We embed the
module shallowly: the session's mutable attributes become the fields of
`St`, the Python `OrderedDict` becomes an insertion-ordered association
list (`DMap`), and every externally visible effect (message send, handler
registration/clearing, journal submission, retry scheduling, callback
invocation, error logging) is recorded in an explicit `Act` trace.
Each handler method becomes a function `St → St × List Act`.
-/

/-- Block/transaction identifiers are opaque content-addressed strings. -/
abbrev Ident := String

/-- A transaction block: its identifier and the ordered identifiers of its
transactions (`TransactionBlock.Identifier`, `.TransactionIDs` in the
source).  Other payload fields are irrelevant to the protocol. -/
structure TransactionBlock where
  Identifier : Ident
  TransactionIDs : List Ident
deriving DecidableEq

/-- A transaction; only its identifier matters to the protocol. -/
structure Txn where
  Identifier : Ident
deriving DecidableEq

/-- The embedding of Python's `OrderedDict` mapping identifiers to either
`none` (discovered, body still pending) or `some v` (resolved): an
association list in insertion order. -/
abbrev DMap (V : Type) := List (Ident × Option V)

/-- The keys of a `DMap` (or of a store), in insertion order. -/
def odKeys {α : Type} (m : List (Ident × α)) : List Ident :=
  m.map Prod.fst

/-- First-match association-list lookup (`d[k]` / `k in d`). -/
def assocLookup {α : Type} : List (Ident × α) → Ident → Option α
  | [], _ => none
  | (k', v) :: rest, k => if k' = k then some v else assocLookup rest k

/-- `OrderedDict` assignment `m[k] = v`: if `k` is present its value is
replaced in place (insertion position kept), otherwise `(k, v)` is appended
at the end. -/
def odSet {V : Type} (m : DMap V) (k : Ident) (v : Option V) : DMap V :=
  if m.any (fun p => p.1 = k) then
    m.map (fun p => if p.1 = k then (k, v) else p)
  else
    m ++ [(k, v)]

/-- The discovery-insertion loop `for i in ids: m[i] = None` shared by the
block-list handler, the block-body handler, the local-block copy in the
block drain, and the uncommitted hand-off.  (In the source each iteration
also appends `i` to the corresponding pending list; the list append is kept
separately in the callers since the two structures are independent.) -/
def insertPendingIds {V : Type} (m : DMap V) (ids : List Ident) : DMap V :=
  ids.foldl (fun acc i => odSet acc i none) m

/-- Request messages sent to the peer. -/
inductive Request where
  | blockList (index : Nat)
  | blockBody (id : Ident)
  | txnList (index : Nat)
  | txnBody (id : Ident)
deriving DecidableEq

/-- The five reply/failure message kinds whose handlers are registered and
cleared. -/
inductive MsgKind where
  | blockListReply
  | blockReply
  | uncommittedListReply
  | transactionReply
  | transferFailed
deriving DecidableEq

/-- One submission to the journal during the commit phase:
`add_pending_transaction(txn, build_block=False)` or
`commit_transaction_block(blk)`.  The submitted value is the `DMap` value,
which may still be `none`. -/
inductive SinkOp where
  | stage (t : Option Txn)
  | commitB (b : Option TransactionBlock)
deriving DecidableEq

/-- Externally visible effects, recorded in order. -/
inductive Act where
  | send (r : Request)
  | registerHandler (k : MsgKind)
  | clearHandler (k : MsgKind)
  | stageTxn (t : Option Txn) (buildBlock : Bool)
  | commitBlock (b : Option TransactionBlock)
  | logError
  | scheduleRetry (delay : Nat)
  | invokeCallback
deriving DecidableEq

/-- The journal action corresponding to a commit-phase submission. -/
def SinkOp.toAction : SinkOp → Act
  | .stage t => .stageTxn t false
  | .commitB b => .commitBlock b

/-- The session state: the mutable attributes set up by
`initiate_journal_transfer` (`self.BlockMap`, `self.PendingBlocks`,
`self.TransactionMap`, `self.PendingTransactions`,
`self.ProcessingUncommitted`, `self.UncommittedTransactions`). -/
structure St where
  BlockMap : DMap TransactionBlock
  PendingBlocks : List Ident
  TransactionMap : DMap Txn
  PendingTransactions : List Ident
  ProcessingUncommitted : Bool
  UncommittedTransactions : List Ident
deriving DecidableEq

/-- The external collaborators: the journal's local stores
(`journal.BlockStore`, `journal.TransactionStore`), the gossip peer list,
the restore-mode inputs of `start_journal_transfer`, and a fault model for
the journal sink — `sinkFails k = true` means the `k`-th submission
(0-based) of the commit phase raises. -/
structure Env where
  BlockStore : List (Ident × TransactionBlock)
  TransactionStore : List (Ident × Txn)
  peers : List Ident
  Restore : Bool
  persistKeys : List Ident
  sinkFails : Nat → Bool

/-- Result of the `while` loop of `_kick_off_next_transaction`: the updated
transaction map, the remaining pending list, and the single request sent
(if any). -/
structure TxnDrainOut where
  tm : DMap Txn
  pend : List Ident
  req : Option Request
deriving DecidableEq

/-- Result of the `while` loop of `_kick_off_next_block`. -/
structure BlockDrainOut where
  bm : DMap TransactionBlock
  tm : DMap Txn
  pendB : List Ident
  pendT : List Ident
  req : Option Request
deriving DecidableEq

/-- The `while` loop of `_kick_off_next_transaction`: pop the front pending
transaction id; if it is not in the local `TransactionStore`, send one
`TransactionRequestMessage` and return immediately; otherwise copy the
stored record into the map and continue. -/
def txnDrainLoop (env : Env) (tm : DMap Txn) : List Ident → TxnDrainOut
  | [] => ⟨tm, [], none⟩
  | txnid :: rest =>
    match assocLookup env.TransactionStore txnid with
    | none => ⟨tm, rest, some (Request.txnBody txnid)⟩
    | some t => txnDrainLoop env (odSet tm txnid (some t)) rest

/-- `_kick_off_next_transaction`; the returned request is `some` exactly
when the Python method returns `True`. -/
def kickOffNextTransaction (env : Env) (s : St) : St × Option Request :=
  let out := txnDrainLoop env s.TransactionMap s.PendingTransactions
  ({ s with TransactionMap := out.tm, PendingTransactions := out.pend }, out.req)

/-- The `while` loop of `_kick_off_next_block`: pop the front pending block
id; if it is not in the local `BlockStore`, send one `BlockRequestMessage`
and return immediately; otherwise copy the stored block into the block map
and add all its transaction ids to the transaction map and pending list. -/
def blockDrainLoop (env : Env) (bm : DMap TransactionBlock) (tm : DMap Txn)
    (pendT : List Ident) : List Ident → BlockDrainOut
  | [] => ⟨bm, tm, [], pendT, none⟩
  | blockid :: rest =>
    match assocLookup env.BlockStore blockid with
    | none => ⟨bm, tm, rest, pendT, some (Request.blockBody blockid)⟩
    | some blk =>
      blockDrainLoop env (odSet bm blockid (some blk))
        (insertPendingIds tm blk.TransactionIDs)
        (pendT ++ blk.TransactionIDs) rest

/-- `_kick_off_next_block`: run the block loop; if it exhausted the pending
blocks without sending, fall through to `_kick_off_next_transaction`. -/
def kickOffNextBlock (env : Env) (s : St) : St × Option Request :=
  let out := blockDrainLoop env s.BlockMap s.TransactionMap
    s.PendingTransactions s.PendingBlocks
  let s1 : St := { s with BlockMap := out.bm, TransactionMap := out.tm,
                          PendingBlocks := out.pendB,
                          PendingTransactions := out.pendT }
  match out.req with
  | some r => (s1, some r)
  | none => kickOffNextTransaction env s1

/-- The handler clears of `_finish` and `_failedhandler`, in source
order. -/
def clears5Acts : List Act :=
  [Act.clearHandler MsgKind.blockListReply,
   Act.clearHandler MsgKind.blockReply,
   Act.clearHandler MsgKind.uncommittedListReply,
   Act.clearHandler MsgKind.transactionReply,
   Act.clearHandler MsgKind.transferFailed]

/-- The handler registrations of `initiate_journal_transfer`, in source
order. -/
def registers5Acts : List Act :=
  [Act.registerHandler MsgKind.blockListReply,
   Act.registerHandler MsgKind.blockReply,
   Act.registerHandler MsgKind.uncommittedListReply,
   Act.registerHandler MsgKind.transactionReply,
   Act.registerHandler MsgKind.transferFailed]

/-- The commit-phase submission sequence of `_finish`: every entry of the
transaction `OrderedDict` (in insertion order), then every entry of the
block `OrderedDict` (in insertion order). -/
def commitItems (s : St) : List SinkOp :=
  s.TransactionMap.map (fun p => SinkOp.stage p.2)
    ++ s.BlockMap.map (fun p => SinkOp.commitB p.2)

/-- The `try` body of `_finish` under the fault model: submit items in
order, counting submissions from `k`; the first raising submission stops
the whole sequence (the exception escapes the two loops and is caught).
Returns the successfully applied prefix and whether an exception was
raised. -/
def applyUntilFail (fails : Nat → Bool) : Nat → List SinkOp → List SinkOp × Bool
  | _, [] => ([], false)
  | k, op :: rest =>
    if fails k then ([], true)
    else
      let out := applyUntilFail fails (k + 1) rest
      (op :: out.1, out.2)

/-- `_finish`: submit all transaction entries then all block entries inside
one `try`; on `AssertionError` or any other exception, log an error (the
exception is swallowed); in every case clear all five message handlers and
invoke the completion callback.  (The unconditional info log is omitted
from the trace.) -/
def finish (env : Env) (s : St) : St × List Act :=
  let out := applyUntilFail env.sinkFails 0 (commitItems s)
  (s, out.1.map SinkOp.toAction
        ++ (if out.2 then [Act.logError] else [])
        ++ clears5Acts ++ [Act.invokeCallback])

/-- `_handleuncommitted`: if uncommitted processing has not begun and the
collected uncommitted list is non-empty, set the flag, enqueue every
uncommitted id into the transaction map and pending list, and resume the
transaction drain; if the drain sent a request, stop there.  In every
other case fall through to `_finish`. -/
def handleUncommitted (env : Env) (s : St) : St × List Act :=
  if s.ProcessingUncommitted = false ∧ 0 < s.UncommittedTransactions.length then
    let s1 : St :=
      { s with ProcessingUncommitted := true,
               TransactionMap :=
                 insertPendingIds s.TransactionMap s.UncommittedTransactions,
               PendingTransactions :=
                 s.PendingTransactions ++ s.UncommittedTransactions }
    let p := kickOffNextTransaction env s1
    match p.2 with
    | some r => (p.1, [Act.send r])
    | none => finish env p.1
  else
    finish env s

/-- `_blocklistreplyhandler`: record all returned block ids (map value
reset to pending, id appended to the pending list); if the page was
non-empty request the next page at `index + count`; otherwise start the
block drain, and if it sent nothing, request the uncommitted list at
offset 0. -/
def blocklistReplyHandler (env : Env) (s : St) (blockListIndex : Nat)
    (blockIDs : List Ident) : St × List Act :=
  let s1 : St := { s with BlockMap := insertPendingIds s.BlockMap blockIDs,
                          PendingBlocks := s.PendingBlocks ++ blockIDs }
  if 0 < blockIDs.length then
    (s1, [Act.send (Request.blockList (blockListIndex + blockIDs.length))])
  else
    let p := kickOffNextBlock env s1
    match p.2 with
    | some r => (p.1, [Act.send r])
    | none => (p.1, [Act.send (Request.txnList 0)])

/-- `_txnlistreplyhandler` (the `UncommittedListReplyMessage` handler):
append all returned ids to the uncommitted list; if the page was non-empty
request the next page at `index + count`; otherwise run the block drain
and, if it sent nothing, `_handleuncommitted`. -/
def txnlistReplyHandler (env : Env) (s : St) (transactionListIndex : Nat)
    (transactionIDs : List Ident) : St × List Act :=
  let s1 : St :=
    { s with UncommittedTransactions :=
               s.UncommittedTransactions ++ transactionIDs }
  if 0 < transactionIDs.length then
    (s1, [Act.send
            (Request.txnList (transactionListIndex + transactionIDs.length))])
  else
    let p := kickOffNextBlock env s1
    match p.2 with
    | some r => (p.1, [Act.send r])
    | none => handleUncommitted env p.1

/-- The state update at the start of `_blockreplyhandler`: store the
decoded block in the block map and add all its transaction ids to the
transaction map and pending list. -/
def blockReplyInsert (s : St) (blk : TransactionBlock) : St :=
  { s with BlockMap := odSet s.BlockMap blk.Identifier (some blk),
           TransactionMap := insertPendingIds s.TransactionMap blk.TransactionIDs,
           PendingTransactions := s.PendingTransactions ++ blk.TransactionIDs }

/-- `_blockreplyhandler`: record the received block, then drain
transactions first, blocks second, and `_handleuncommitted` if both queues
are exhausted without a send.  (The transport-level unwrapping of the
embedded block message is outside the embedding: the event carries the
decoded block.) -/
def blockReplyHandler (env : Env) (s : St) (blk : TransactionBlock) :
    St × List Act :=
  let s1 := blockReplyInsert s blk
  let p := kickOffNextTransaction env s1
  match p.2 with
  | some r => (p.1, [Act.send r])
  | none =>
    let q := kickOffNextBlock env p.1
    match q.2 with
    | some r => (q.1, [Act.send r])
    | none => handleUncommitted env q.1

/-- The state update at the start of `_txnreplyhandler`: store the decoded
transaction in the transaction map. -/
def txnReplyInsert (s : St) (t : Txn) : St :=
  { s with TransactionMap := odSet s.TransactionMap t.Identifier (some t) }

/-- `_txnreplyhandler`: record the received transaction, then drain
transactions first, blocks second, and `_handleuncommitted` if both queues
are exhausted without a send. -/
def txnReplyHandler (env : Env) (s : St) (t : Txn) : St × List Act :=
  let s1 := txnReplyInsert s t
  let p := kickOffNextTransaction env s1
  match p.2 with
  | some r => (p.1, [Act.send r])
  | none =>
    let q := kickOffNextBlock env p.1
    match q.2 with
    | some r => (q.1, [Act.send r])
    | none => handleUncommitted env q.1

/-- `_failedhandler`: clear all five message handlers and schedule a full
restart (`initiate_journal_transfer`) after 10 time units.  The session
state object is left as-is; the restart rebuilds it from scratch. -/
def failedHandler (s : St) : St × List Act :=
  (s, clears5Acts ++ [Act.scheduleRetry 10])

/-- The fresh session state built by `initiate_journal_transfer`. -/
def freshSession : St :=
  { BlockMap := [], PendingBlocks := [], TransactionMap := [],
    PendingTransactions := [], ProcessingUncommitted := false,
    UncommittedTransactions := [] }

/-- `initiate_journal_transfer`: if there are no peers, schedule a retry
after 10 time units; otherwise pick a peer (`random.choice`, modelled by
the `choice` oracle), create all session state empty/false, register the
five message handlers, and send a block-list request at offset 0. -/
def initiateJournalTransfer (env : Env) (choice : List Ident → Ident) :
    Option (Ident × St) × List Act :=
  if env.peers.length = 0 then
    (none, [Act.scheduleRetry 10])
  else
    (some (choice env.peers, freshSession),
     registers5Acts ++ [Act.send (Request.blockList 0)])

/-- `start_journal_transfer`: in restore mode with more than one persisted
global-store key, return `False` without doing anything; otherwise
construct a session, initiate the transfer and return `True`. -/
def startJournalTransfer (env : Env) (choice : List Ident → Ident) :
    Bool × Option (Ident × St) × List Act :=
  if env.Restore = true ∧ 1 < env.persistKeys.length then
    (false, none, [])
  else
    let p := initiateJournalTransfer env choice
    (true, p.1, p.2)

/-- The reply events a session can receive (the transfer-failure signal is
handled separately by `failedHandler`). -/
inductive Event where
  | blockListReply (index : Nat) (ids : List Ident)
  | blockReply (blk : TransactionBlock)
  | txnListReply (index : Nat) (ids : List Ident)
  | txnReply (t : Txn)
deriving DecidableEq

/-- Request/reply categories. -/
inductive Cat where
  | blockList
  | blockBody
  | txnList
  | txnBody
deriving DecidableEq

/-- The category of a request. -/
def catOfReq : Request → Cat
  | .blockList _ => .blockList
  | .blockBody _ => .blockBody
  | .txnList _ => .txnList
  | .txnBody _ => .txnBody

/-- The category of the request a reply event answers. -/
def catOfEvent : Event → Cat
  | .blockListReply _ _ => .blockList
  | .blockReply _ => .blockBody
  | .txnListReply _ _ => .txnList
  | .txnReply _ => .txnBody

/-- Count of outstanding (sent, not yet answered) requests per category. -/
structure Out where
  blockList : Nat
  blockBody : Nat
  txnList : Nat
  txnBody : Nat
deriving DecidableEq

/-- Total number of outstanding requests. -/
def Out.total (o : Out) : Nat :=
  o.blockList + o.blockBody + o.txnList + o.txnBody

/-- Outstanding count of one category. -/
def Out.catCount (o : Out) : Cat → Nat
  | .blockList => o.blockList
  | .blockBody => o.blockBody
  | .txnList => o.txnList
  | .txnBody => o.txnBody

/-- A reply arrived: one request of its category is no longer
outstanding. -/
def Out.consume (o : Out) : Cat → Out
  | .blockList => { o with blockList := o.blockList - 1 }
  | .blockBody => { o with blockBody := o.blockBody - 1 }
  | .txnList => { o with txnList := o.txnList - 1 }
  | .txnBody => { o with txnBody := o.txnBody - 1 }

/-- A request was sent: one more outstanding in its category. -/
def Out.bump (o : Out) : Cat → Out
  | .blockList => { o with blockList := o.blockList + 1 }
  | .blockBody => { o with blockBody := o.blockBody + 1 }
  | .txnList => { o with txnList := o.txnList + 1 }
  | .txnBody => { o with txnBody := o.txnBody + 1 }

/-- Record a batch of sent requests as outstanding. -/
def bumpAll (o : Out) (rs : List Request) : Out :=
  rs.foldl (fun a r => a.bump (catOfReq r)) o

/-- The requests sent in an action trace. -/
def requestsOf (acts : List Act) : List Request :=
  acts.filterMap (fun a => match a with
    | Act.send r => some r
    | _ => none)

/-- Dispatch of one reply event to its registered handler. -/
def stepEvent (env : Env) (s : St) : Event → St × List Act
  | .blockListReply idx ids => blocklistReplyHandler env s idx ids
  | .blockReply blk => blockReplyHandler env s blk
  | .txnListReply idx ids => txnlistReplyHandler env s idx ids
  | .txnReply t => txnReplyHandler env s t

/-- Run a session over a sequence of reply events, tracking outstanding
requests.  A reply event is deliverable only when a request of its
category is outstanding (the transport answers requests); otherwise the
trace is invalid (`none`). -/
def runTrace (env : Env) : St → Out → List Event → Option (St × Out)
  | s, o, [] => some (s, o)
  | s, o, e :: es =>
    if 1 ≤ o.catCount (catOfEvent e) then
      let p := stepEvent env s e
      runTrace env p.1
        (bumpAll (o.consume (catOfEvent e)) (requestsOf p.2)) es
    else
      none

/-- Feed a sequence of block-list reply pages to the session, each page
echoing the offset the previous request asked for. -/
def runBlockPages (env : Env) (s : St) (idx : Nat) :
    List (List Ident) → St × List Act
  | [] => (s, [])
  | p :: ps =>
    let a := blocklistReplyHandler env s idx p
    let b := runBlockPages env a.1 (idx + p.length) ps
    (b.1, a.2 ++ b.2)

/-- Feed a sequence of uncommitted-list reply pages to the session. -/
def runTxnPages (env : Env) (s : St) (idx : Nat) :
    List (List Ident) → St × List Act
  | [] => (s, [])
  | p :: ps =>
    let a := txnlistReplyHandler env s idx p
    let b := runTxnPages env a.1 (idx + p.length) ps
    (b.1, a.2 ++ b.2)

/-- The identifiers the transaction drain loop pops: everything up to and
including the first id missing from the local store (or the whole list if
none is missing). -/
def txnDrainPopped (env : Env) : List Ident → List Ident
  | [] => []
  | txnid :: rest =>
    match assocLookup env.TransactionStore txnid with
    | none => [txnid]
    | some _ => txnid :: txnDrainPopped env rest

/-- The identifiers the block drain loop pops. -/
def blockDrainPopped (env : Env) : List Ident → List Ident
  | [] => []
  | blockid :: rest =>
    match assocLookup env.BlockStore blockid with
    | none => [blockid]
    | some _ => blockid :: blockDrainPopped env rest

/-- The transaction ids revealed, in order, by the locally present blocks
the block drain loop pops. -/
def blockDrainTxns (env : Env) : List Ident → List Ident
  | [] => []
  | blockid :: rest =>
    match assocLookup env.BlockStore blockid with
    | none => []
    | some blk => blk.TransactionIDs ++ blockDrainTxns env rest

/-- Sample block `b1` containing transaction `t1` (used in concrete
instantiations). -/
def blkB1 : TransactionBlock := ⟨"b1", ["t1"]⟩

/-- Sample block `b2` containing transaction `t2`. -/
def blkB2 : TransactionBlock := ⟨"b2", ["t2"]⟩

/-- Sample transactions. -/
def txnT1 : Txn := ⟨"t1"⟩

def txnT2 : Txn := ⟨"t2"⟩

def txnT3 : Txn := ⟨"t3"⟩

/-- A sample environment: block `b1` and transaction `t1` are known
locally, one peer, no restore mode, and a journal sink that never
raises. -/
def envW : Env :=
  { BlockStore := [("b1", blkB1)], TransactionStore := [("t1", txnT1)],
    peers := ["p1"], Restore := false, persistKeys := [],
    sinkFails := fun _ => false }

/-- A sample environment whose journal sink raises on the second
submission (0-based index 1) of the commit phase. -/
def envFail1 : Env :=
  { BlockStore := [], TransactionStore := [], peers := ["p1"],
    Restore := false, persistKeys := [],
    sinkFails := fun k => k = 1 }

/-- A sample environment in restore mode with two persisted
global-store keys. -/
def envRestore : Env :=
  { BlockStore := [], TransactionStore := [], peers := ["p1"],
    Restore := true, persistKeys := ["g1", "g2"],
    sinkFails := fun _ => false }

/-- A sample session state mid-transfer. -/
def stW : St :=
  { BlockMap := [("b1", some blkB1)], PendingBlocks := [],
    TransactionMap := [("t1", none), ("t2", some txnT2)],
    PendingTransactions := [], ProcessingUncommitted := false,
    UncommittedTransactions := [] }

/-- A session state whose commit sequence stages three transactions and
then commits one block. -/
def st3txn : St :=
  { BlockMap := [("b1", some blkB1)], PendingBlocks := [],
    TransactionMap := [("t1", some txnT1), ("t2", some txnT2),
                       ("t3", some txnT3)],
    PendingTransactions := [], ProcessingUncommitted := false,
    UncommittedTransactions := [] }

/-- A session state with one locally known and one missing identifier in
each pending queue. -/
def stDedup : St :=
  { BlockMap := [("b1", none), ("bX", none)], PendingBlocks := ["b1", "bX"],
    TransactionMap := [("t1", none), ("tX", none)],
    PendingTransactions := ["t1", "tX"], ProcessingUncommitted := false,
    UncommittedTransactions := [] }

/-- A session state awaiting one missing block body. -/
def stC7 : St :=
  { BlockMap := [("bX", none)], PendingBlocks := ["bX"],
    TransactionMap := [], PendingTransactions := [],
    ProcessingUncommitted := false, UncommittedTransactions := [] }

/-- A session state awaiting one missing block body, with a transaction
reply outstanding. -/
def stC7t : St :=
  { BlockMap := [("bX", none)], PendingBlocks := ["bX"],
    TransactionMap := [("t2", none)], PendingTransactions := [],
    ProcessingUncommitted := false, UncommittedTransactions := [] }

/-- A session state whose block queue resolves locally and whose
transaction queue then needs a fetch. -/
def stC7b : St :=
  { BlockMap := [("b1", none)], PendingBlocks := ["b1"],
    TransactionMap := [("tX", none)], PendingTransactions := ["tX"],
    ProcessingUncommitted := false, UncommittedTransactions := [] }

/-- A session state with a collected, not yet processed uncommitted
list. -/
def stC9 : St :=
  { BlockMap := [("b1", some blkB1)], PendingBlocks := [],
    TransactionMap := [], PendingTransactions := [],
    ProcessingUncommitted := false,
    UncommittedTransactions := ["t1", "tX"] }

/-!
### Lemmas about the `OrderedDict` embedding
-/


theorem assocLookup_cons {α : Type} (k' : Ident) (v : α) (rest : List (Ident × α))
    (k : Ident) :
    assocLookup ((k', v) :: rest) k
      = if k' = k then some v else assocLookup rest k := rfl

theorem assocLookup_mapReplace_self {V : Type} (k : Ident) (v : Option V) :
    ∀ m : DMap V, m.any (fun p => p.1 = k) = true →
      assocLookup (m.map (fun p => if p.1 = k then (k, v) else p)) k = some v := by
  intro m
  induction m with
  | nil => intro h; simp at h
  | cons p rest ih =>
    intro hmem
    simp only [List.any_cons, Bool.or_eq_true, decide_eq_true_eq] at hmem
    by_cases hp : p.1 = k
    · simp only [List.map_cons, if_pos hp, assocLookup_cons, if_pos rfl]
      simp
    · have hrest : rest.any (fun p => decide (p.1 = k)) = true := by
        rcases hmem with h | h
        · exact absurd h hp
        · exact h
      simp only [List.map_cons, if_neg hp]
      rw [assocLookup_cons, if_neg hp]
      exact ih hrest

theorem assocLookup_mapReplace_ne {V : Type} (k k' : Ident) (v : Option V)
    (h : k' ≠ k) :
    ∀ m : DMap V,
      assocLookup (m.map (fun p => if p.1 = k then (k, v) else p)) k'
        = assocLookup m k' := by
  intro m
  induction m with
  | nil => rfl
  | cons p rest ih =>
    by_cases hp : p.1 = k
    · simp only [List.map_cons, if_pos hp]
      rw [assocLookup_cons, assocLookup_cons]
      rw [if_neg (fun hh : k = k' => h (Eq.symm hh))]
      rw [if_neg (fun hh : p.1 = k' => h (hp ▸ hh ▸ rfl))]
      exact ih
    · simp only [List.map_cons, if_neg hp]
      rw [assocLookup_cons, assocLookup_cons]
      split
      · rfl
      · exact ih

theorem assocLookup_append_right {α : Type} (k : Ident) (l : List (Ident × α)) :
    ∀ m : List (Ident × α), (∀ p ∈ m, p.1 ≠ k) →
      assocLookup (m ++ l) k = assocLookup l k := by
  intro m
  induction m with
  | nil => intro _; rfl
  | cons p rest ih =>
    intro h
    simp only [List.cons_append]
    rw [assocLookup_cons, if_neg (h p (List.mem_cons_self p rest))]
    exact ih (fun q hq => h q (List.mem_cons_of_mem p hq))

theorem assocLookup_append_left {α : Type} (k : Ident) (l : List (Ident × α)) :
    ∀ m : List (Ident × α), (∃ p ∈ m, p.1 = k) →
      assocLookup (m ++ l) k = assocLookup m k := by
  intro m
  induction m with
  | nil => intro h; rcases h with ⟨p, hp, _⟩; simp at hp
  | cons p rest ih =>
    intro h
    simp only [List.cons_append]
    rw [assocLookup_cons, assocLookup_cons]
    split
    · rfl
    · rename_i hne
      apply ih
      rcases h with ⟨q, hq, hqk⟩
      rcases List.mem_cons.mp hq with rfl | hq'
      · exact absurd hqk hne
      · exact ⟨q, hq', hqk⟩

theorem assocLookup_odSet_self {V : Type} (m : DMap V) (k : Ident) (v : Option V) :
    assocLookup (odSet m k v) k = some v := by
  unfold odSet
  by_cases hmem : m.any (fun p => p.1 = k) = true
  · rw [if_pos hmem]
    exact assocLookup_mapReplace_self k v m hmem
  · rw [if_neg hmem]
    have hno : ∀ p ∈ m, p.1 ≠ k := by
      intro p hp hk
      exact hmem (List.any_eq_true.mpr ⟨p, hp, by simp [hk]⟩)
    rw [assocLookup_append_right k [(k, v)] m hno]
    simp [assocLookup_cons]

theorem assocLookup_odSet_ne {V : Type} (m : DMap V) (k k' : Ident) (v : Option V)
    (h : k' ≠ k) : assocLookup (odSet m k v) k' = assocLookup m k' := by
  unfold odSet
  by_cases hmem : m.any (fun p => p.1 = k) = true
  · rw [if_pos hmem]
    exact assocLookup_mapReplace_ne k k' v h m
  · rw [if_neg hmem]
    by_cases hk' : ∃ p ∈ m, p.1 = k'
    · exact assocLookup_append_left k' [(k, v)] m hk'
    · have hno : ∀ p ∈ m, p.1 ≠ k' := by
        intro p hp hk
        exact hk' ⟨p, hp, hk⟩
      rw [assocLookup_append_right k' [(k, v)] m hno]
      rw [assocLookup_cons, if_neg (fun hh : k = k' => h (Eq.symm hh))]
      symm
      induction m with
      | nil => rfl
      | cons p rest ih =>
        rw [assocLookup_cons, if_neg (hno p (List.mem_cons_self p rest))]
        exact ih (fun hm => hmem (by simp only [List.any_cons, Bool.or_eq_true]; right; exact hm))
          (fun hex => hk' (by rcases hex with ⟨q, hq, hqk⟩; exact ⟨q, List.mem_cons_of_mem p hq, hqk⟩))
          (fun q hq => hno q (List.mem_cons_of_mem p hq))

theorem assocLookup_odSet_isSome {V : Type} (m : DMap V) (k k' : Ident) (v : Option V)
    (h : (assocLookup m k').isSome) : (assocLookup (odSet m k v) k').isSome := by
  by_cases hk : k' = k
  · subst hk; rw [assocLookup_odSet_self]; rfl
  · rw [assocLookup_odSet_ne m k k' v hk]; exact h

theorem odKeys_odSet_present {V : Type} (m : DMap V) (k : Ident) (v : Option V)
    (h : m.any (fun p => p.1 = k) = true) : odKeys (odSet m k v) = odKeys m := by
  unfold odSet
  rw [if_pos h]
  unfold odKeys
  rw [List.map_map]
  apply List.map_congr_left
  intro p _
  by_cases hp : p.1 = k
  · simp [hp]
  · simp [hp]

theorem odKeys_odSet_absent {V : Type} (m : DMap V) (k : Ident) (v : Option V)
    (h : ¬ m.any (fun p => p.1 = k) = true) :
    odKeys (odSet m k v) = odKeys m ++ [k] := by
  unfold odSet
  rw [if_neg h]
  unfold odKeys
  simp

theorem odKeys_odSet_extends {V : Type} (m : DMap V) (k : Ident) (v : Option V) :
    ∃ t, odKeys (odSet m k v) = odKeys m ++ t := by
  by_cases h : m.any (fun p => p.1 = k) = true
  · exact ⟨[], by rw [odKeys_odSet_present m k v h]; simp⟩
  · exact ⟨[k], odKeys_odSet_absent m k v h⟩

theorem not_any_iff_not_mem_odKeys {V : Type} (m : DMap V) (k : Ident) :
    ¬ m.any (fun p => p.1 = k) = true ↔ k ∉ odKeys m := by
  unfold odKeys
  rw [List.any_eq_true]
  simp only [List.mem_map, decide_eq_true_eq]

theorem nodup_odKeys_odSet {V : Type} (m : DMap V) (k : Ident) (v : Option V)
    (h : (odKeys m).Nodup) : (odKeys (odSet m k v)).Nodup := by
  by_cases hmem : m.any (fun p => p.1 = k) = true
  · rw [odKeys_odSet_present m k v hmem]; exact h
  · rw [odKeys_odSet_absent m k v hmem]
    have hk : k ∉ odKeys m := (not_any_iff_not_mem_odKeys m k).mp hmem
    simp [List.nodup_append, h, hk]

theorem insertPendingIds_nil {V : Type} (m : DMap V) :
    insertPendingIds m [] = m := rfl

theorem insertPendingIds_cons {V : Type} (m : DMap V) (i : Ident) (ids : List Ident) :
    insertPendingIds m (i :: ids) = insertPendingIds (odSet m i none) ids := rfl

theorem insertPendingIds_append {V : Type} (m : DMap V) (a b : List Ident) :
    insertPendingIds m (a ++ b) = insertPendingIds (insertPendingIds m a) b := by
  unfold insertPendingIds
  rw [List.foldl_append]

theorem assocLookup_insertPendingIds_not_mem {V : Type} (ids : List Ident) :
    ∀ (m : DMap V) (i : Ident), i ∉ ids →
      assocLookup (insertPendingIds m ids) i = assocLookup m i := by
  induction ids with
  | nil => intro m i _; rfl
  | cons a rest ih =>
    intro m i hi
    rw [insertPendingIds_cons]
    have h1 : i ∉ rest := fun hr => hi (List.mem_cons_of_mem a hr)
    have h2 : i ≠ a := fun he => hi (he ▸ List.mem_cons_self i rest)
    rw [ih (odSet m a none) i h1, assocLookup_odSet_ne m a i none h2]

theorem assocLookup_insertPendingIds_mem {V : Type} (ids : List Ident) :
    ∀ (m : DMap V) (i : Ident), i ∈ ids →
      assocLookup (insertPendingIds m ids) i = some none := by
  induction ids with
  | nil => intro m i hi; simp at hi
  | cons a rest ih =>
    intro m i hi
    rw [insertPendingIds_cons]
    by_cases hr : i ∈ rest
    · exact ih (odSet m a none) i hr
    · have ha : i = a := by
        rcases List.mem_cons.mp hi with h | h
        · exact h
        · exact absurd h hr
      subst ha
      rw [assocLookup_insertPendingIds_not_mem rest (odSet m i none) i hr,
        assocLookup_odSet_self]

theorem assocLookup_insertPendingIds_isSome {V : Type} (ids : List Ident) :
    ∀ (m : DMap V) (i : Ident), (assocLookup m i).isSome →
      (assocLookup (insertPendingIds m ids) i).isSome := by
  induction ids with
  | nil => intro m i h; exact h
  | cons a rest ih =>
    intro m i h
    rw [insertPendingIds_cons]
    exact ih (odSet m a none) i (assocLookup_odSet_isSome m a i none h)

theorem odKeys_insertPendingIds_extends {V : Type} (ids : List Ident) :
    ∀ m : DMap V, ∃ t, odKeys (insertPendingIds m ids) = odKeys m ++ t := by
  induction ids with
  | nil => intro m; exact ⟨[], by simp [insertPendingIds_nil]⟩
  | cons a rest ih =>
    intro m
    rw [insertPendingIds_cons]
    rcases ih (odSet m a none) with ⟨t, ht⟩
    rcases odKeys_odSet_extends m a none with ⟨u, hu⟩
    exact ⟨u ++ t, by rw [ht, hu, List.append_assoc]⟩

theorem nodup_odKeys_insertPendingIds {V : Type} (ids : List Ident) :
    ∀ m : DMap V, (odKeys m).Nodup → (odKeys (insertPendingIds m ids)).Nodup := by
  induction ids with
  | nil => intro m h; exact h
  | cons a rest ih =>
    intro m h
    rw [insertPendingIds_cons]
    exact ih (odSet m a none) (nodup_odKeys_odSet m a none h)

/-!
### Characterization of the drain loops
-/

theorem txnDrainLoop_popped (env : Env) (pend : List Ident) :
    ∀ tm : DMap Txn,
      pend = txnDrainPopped env pend ++ (txnDrainLoop env tm pend).pend := by
  induction pend with
  | nil => intro tm; rfl
  | cons x rest ih =>
    intro tm
    cases h : assocLookup env.TransactionStore x with
    | none => simp [txnDrainLoop, txnDrainPopped, h]
    | some t =>
      simp only [txnDrainLoop, txnDrainPopped, h, List.cons_append, List.cons.injEq,
        true_and]
      exact ih (odSet tm x (some t))

theorem txnDrainLoop_none_rest (env : Env) (pend : List Ident) :
    ∀ tm : DMap Txn, (txnDrainLoop env tm pend).req = none →
      (txnDrainLoop env tm pend).pend = [] := by
  induction pend with
  | nil => intro tm _; rfl
  | cons x rest ih =>
    intro tm h
    cases hx : assocLookup env.TransactionStore x with
    | none => simp [txnDrainLoop, hx] at h
    | some t =>
      simp only [txnDrainLoop, hx] at h ⊢
      exact ih (odSet tm x (some t)) h

theorem txnDrainLoop_req (env : Env) (pend : List Ident) :
    ∀ (tm : DMap Txn) (r : Request), (txnDrainLoop env tm pend).req = some r →
      ∃ x, r = Request.txnBody x ∧ assocLookup env.TransactionStore x = none := by
  induction pend with
  | nil => intro tm r h; simp [txnDrainLoop] at h
  | cons x rest ih =>
    intro tm r h
    cases hx : assocLookup env.TransactionStore x with
    | none =>
      simp only [txnDrainLoop, hx] at h
      cases h
      exact ⟨x, rfl, hx⟩
    | some t =>
      simp only [txnDrainLoop, hx] at h
      exact ih (odSet tm x (some t)) r h

theorem txnDrainLoop_not_popped (env : Env) (pend : List Ident) :
    ∀ (tm : DMap Txn) (x : Ident), x ∉ txnDrainPopped env pend →
      assocLookup (txnDrainLoop env tm pend).tm x = assocLookup tm x := by
  induction pend with
  | nil => intro tm x _; rfl
  | cons y rest ih =>
    intro tm x hx
    cases hy : assocLookup env.TransactionStore y with
    | none => simp [txnDrainLoop, hy]
    | some t =>
      simp only [txnDrainPopped, hy, List.mem_cons, not_or] at hx
      simp only [txnDrainLoop, hy]
      rw [ih (odSet tm y (some t)) x hx.2]
      exact assocLookup_odSet_ne tm y x (some t) hx.1

theorem txnDrainLoop_copied (env : Env) (pend : List Ident) :
    ∀ (tm : DMap Txn) (x : Ident) (t : Txn), x ∈ txnDrainPopped env pend →
      assocLookup env.TransactionStore x = some t →
      assocLookup (txnDrainLoop env tm pend).tm x = some (some t) := by
  induction pend with
  | nil => intro tm x t hx _; simp [txnDrainPopped] at hx
  | cons y rest ih =>
    intro tm x t hx hstore
    cases hy : assocLookup env.TransactionStore y with
    | none =>
      simp only [txnDrainPopped, hy, List.mem_singleton] at hx
      subst hx
      rw [hstore] at hy
      exact absurd hy (by simp)
    | some ty =>
      simp only [txnDrainPopped, hy, List.mem_cons] at hx
      simp only [txnDrainLoop, hy]
      by_cases hrest : x ∈ txnDrainPopped env rest
      · exact ih (odSet tm y (some ty)) x t hrest hstore
      · have hxy : x = y := by
          rcases hx with h | h
          · exact h
          · exact absurd h hrest
        subst hxy
        rw [txnDrainLoop_not_popped env rest (odSet tm x (some ty)) x hrest]
        rw [hstore] at hy
        cases hy
        rw [assocLookup_odSet_self]

theorem txnDrainLoop_isSome (env : Env) (pend : List Ident) :
    ∀ (tm : DMap Txn) (x : Ident), (assocLookup tm x).isSome →
      (assocLookup (txnDrainLoop env tm pend).tm x).isSome := by
  induction pend with
  | nil => intro tm x h; exact h
  | cons y rest ih =>
    intro tm x h
    cases hy : assocLookup env.TransactionStore y with
    | none => simpa [txnDrainLoop, hy] using h
    | some t =>
      simp only [txnDrainLoop, hy]
      exact ih (odSet tm y (some t)) x (assocLookup_odSet_isSome tm y x (some t) h)

theorem blockDrainLoop_popped (env : Env) (pendB : List Ident) :
    ∀ (bm : DMap TransactionBlock) (tm : DMap Txn) (pendT : List Ident),
      pendB = blockDrainPopped env pendB
        ++ (blockDrainLoop env bm tm pendT pendB).pendB := by
  induction pendB with
  | nil => intro bm tm pendT; rfl
  | cons b rest ih =>
    intro bm tm pendT
    cases h : assocLookup env.BlockStore b with
    | none => simp [blockDrainLoop, blockDrainPopped, h]
    | some blk =>
      simp only [blockDrainLoop, blockDrainPopped, h, List.cons_append,
        List.cons.injEq, true_and]
      exact ih (odSet bm b (some blk)) (insertPendingIds tm blk.TransactionIDs)
        (pendT ++ blk.TransactionIDs)

theorem blockDrainLoop_none_rest (env : Env) (pendB : List Ident) :
    ∀ (bm : DMap TransactionBlock) (tm : DMap Txn) (pendT : List Ident),
      (blockDrainLoop env bm tm pendT pendB).req = none →
      (blockDrainLoop env bm tm pendT pendB).pendB = [] := by
  induction pendB with
  | nil => intro bm tm pendT _; rfl
  | cons b rest ih =>
    intro bm tm pendT h
    cases hb : assocLookup env.BlockStore b with
    | none => simp [blockDrainLoop, hb] at h
    | some blk =>
      simp only [blockDrainLoop, hb] at h ⊢
      exact ih (odSet bm b (some blk)) (insertPendingIds tm blk.TransactionIDs)
        (pendT ++ blk.TransactionIDs) h

theorem blockDrainLoop_req (env : Env) (pendB : List Ident) :
    ∀ (bm : DMap TransactionBlock) (tm : DMap Txn) (pendT : List Ident)
      (r : Request), (blockDrainLoop env bm tm pendT pendB).req = some r →
      ∃ x, r = Request.blockBody x ∧ assocLookup env.BlockStore x = none := by
  induction pendB with
  | nil => intro bm tm pendT r h; simp [blockDrainLoop] at h
  | cons b rest ih =>
    intro bm tm pendT r h
    cases hb : assocLookup env.BlockStore b with
    | none =>
      simp only [blockDrainLoop, hb] at h
      cases h
      exact ⟨b, rfl, hb⟩
    | some blk =>
      simp only [blockDrainLoop, hb] at h
      exact ih (odSet bm b (some blk)) (insertPendingIds tm blk.TransactionIDs)
        (pendT ++ blk.TransactionIDs) r h

theorem blockDrainLoop_pendT (env : Env) (pendB : List Ident) :
    ∀ (bm : DMap TransactionBlock) (tm : DMap Txn) (pendT : List Ident),
      (blockDrainLoop env bm tm pendT pendB).pendT
        = pendT ++ blockDrainTxns env pendB := by
  induction pendB with
  | nil => intro bm tm pendT; simp [blockDrainLoop, blockDrainTxns]
  | cons b rest ih =>
    intro bm tm pendT
    cases hb : assocLookup env.BlockStore b with
    | none => simp [blockDrainLoop, blockDrainTxns, hb]
    | some blk =>
      simp only [blockDrainLoop, blockDrainTxns, hb]
      rw [ih (odSet bm b (some blk)) (insertPendingIds tm blk.TransactionIDs)
        (pendT ++ blk.TransactionIDs)]
      rw [List.append_assoc]

theorem blockDrainLoop_tm (env : Env) (pendB : List Ident) :
    ∀ (bm : DMap TransactionBlock) (tm : DMap Txn) (pendT : List Ident),
      (blockDrainLoop env bm tm pendT pendB).tm
        = insertPendingIds tm (blockDrainTxns env pendB) := by
  induction pendB with
  | nil => intro bm tm pendT; simp [blockDrainLoop, blockDrainTxns, insertPendingIds_nil]
  | cons b rest ih =>
    intro bm tm pendT
    cases hb : assocLookup env.BlockStore b with
    | none => simp [blockDrainLoop, blockDrainTxns, hb, insertPendingIds_nil]
    | some blk =>
      simp only [blockDrainLoop, blockDrainTxns, hb]
      rw [ih (odSet bm b (some blk)) (insertPendingIds tm blk.TransactionIDs)
        (pendT ++ blk.TransactionIDs)]
      rw [insertPendingIds_append]

theorem blockDrainLoop_bm_not_popped (env : Env) (pendB : List Ident) :
    ∀ (bm : DMap TransactionBlock) (tm : DMap Txn) (pendT : List Ident)
      (x : Ident), x ∉ blockDrainPopped env pendB →
      assocLookup (blockDrainLoop env bm tm pendT pendB).bm x
        = assocLookup bm x := by
  induction pendB with
  | nil => intro bm tm pendT x _; rfl
  | cons b rest ih =>
    intro bm tm pendT x hx
    cases hb : assocLookup env.BlockStore b with
    | none => simp [blockDrainLoop, hb]
    | some blk =>
      simp only [blockDrainPopped, hb, List.mem_cons, not_or] at hx
      simp only [blockDrainLoop, hb]
      rw [ih (odSet bm b (some blk)) (insertPendingIds tm blk.TransactionIDs)
        (pendT ++ blk.TransactionIDs) x hx.2]
      exact assocLookup_odSet_ne bm b x (some blk) hx.1

theorem blockDrainLoop_bm_copied (env : Env) (pendB : List Ident) :
    ∀ (bm : DMap TransactionBlock) (tm : DMap Txn) (pendT : List Ident)
      (x : Ident) (blk : TransactionBlock), x ∈ blockDrainPopped env pendB →
      assocLookup env.BlockStore x = some blk →
      assocLookup (blockDrainLoop env bm tm pendT pendB).bm x
        = some (some blk) := by
  induction pendB with
  | nil => intro bm tm pendT x blk hx _; simp [blockDrainPopped] at hx
  | cons b rest ih =>
    intro bm tm pendT x blk hx hstore
    cases hb : assocLookup env.BlockStore b with
    | none =>
      simp only [blockDrainPopped, hb, List.mem_singleton] at hx
      subst hx
      rw [hstore] at hb
      exact absurd hb (by simp)
    | some blkb =>
      simp only [blockDrainPopped, hb, List.mem_cons] at hx
      simp only [blockDrainLoop, hb]
      by_cases hrest : x ∈ blockDrainPopped env rest
      · exact ih (odSet bm b (some blkb)) (insertPendingIds tm blkb.TransactionIDs)
          (pendT ++ blkb.TransactionIDs) x blk hrest hstore
      · have hxb : x = b := by
          rcases hx with h | h
          · exact h
          · exact absurd h hrest
        subst hxb
        rw [blockDrainLoop_bm_not_popped env rest (odSet bm x (some blkb))
          (insertPendingIds tm blkb.TransactionIDs)
          (pendT ++ blkb.TransactionIDs) x hrest]
        rw [hstore] at hb
        cases hb
        rw [assocLookup_odSet_self]

/-!
### The two drain entry points
-/

theorem kickOffNextTransaction_fields (env : Env) (s : St) :
    (kickOffNextTransaction env s).1.BlockMap = s.BlockMap
    ∧ (kickOffNextTransaction env s).1.PendingBlocks = s.PendingBlocks
    ∧ (kickOffNextTransaction env s).1.ProcessingUncommitted
        = s.ProcessingUncommitted
    ∧ (kickOffNextTransaction env s).1.UncommittedTransactions
        = s.UncommittedTransactions := by
  exact ⟨rfl, rfl, rfl, rfl⟩

theorem kickOffNextTransaction_req (env : Env) (s : St) (r : Request)
    (h : (kickOffNextTransaction env s).2 = some r) :
    ∃ x, r = Request.txnBody x ∧ assocLookup env.TransactionStore x = none := by
  exact txnDrainLoop_req env s.PendingTransactions s.TransactionMap r h

theorem kickOffNextTransaction_none_pend (env : Env) (s : St)
    (h : (kickOffNextTransaction env s).2 = none) :
    (kickOffNextTransaction env s).1.PendingTransactions = [] := by
  exact txnDrainLoop_none_rest env s.PendingTransactions s.TransactionMap h

theorem kickOffNextBlock_req (env : Env) (s : St) (r : Request)
    (h : (kickOffNextBlock env s).2 = some r) :
    (∃ x, r = Request.blockBody x ∧ assocLookup env.BlockStore x = none)
    ∨ (∃ x, r = Request.txnBody x
         ∧ assocLookup env.TransactionStore x = none) := by
  simp only [kickOffNextBlock] at h
  cases hout : (blockDrainLoop env s.BlockMap s.TransactionMap
      s.PendingTransactions s.PendingBlocks).req with
  | some r' =>
    rw [hout] at h
    simp only at h
    cases h
    exact Or.inl (blockDrainLoop_req env s.PendingBlocks s.BlockMap
      s.TransactionMap s.PendingTransactions r hout)
  | none =>
    rw [hout] at h
    simp only at h
    exact Or.inr (kickOffNextTransaction_req env _ r h)

theorem kickOffNextBlock_txnreq (env : Env) (s : St) (x : Ident)
    (h : (kickOffNextBlock env s).2 = some (Request.txnBody x)) :
    (kickOffNextBlock env s).1.PendingBlocks = [] := by
  simp only [kickOffNextBlock] at h ⊢
  cases hout : (blockDrainLoop env s.BlockMap s.TransactionMap
      s.PendingTransactions s.PendingBlocks).req with
  | some r' =>
    rw [hout] at h
    simp only at h
    cases h
    rcases blockDrainLoop_req env s.PendingBlocks s.BlockMap s.TransactionMap
      s.PendingTransactions _ hout with ⟨y, hy, _⟩
    exact absurd hy (by simp)
  | none =>
    simp only
    have hrest := blockDrainLoop_none_rest env s.PendingBlocks s.BlockMap
      s.TransactionMap s.PendingTransactions hout
    rw [(kickOffNextTransaction_fields env _).2.1]
    exact hrest

theorem kickOffNextBlock_flag (env : Env) (s : St) :
    (kickOffNextBlock env s).1.ProcessingUncommitted
      = s.ProcessingUncommitted := by
  simp only [kickOffNextBlock]
  cases hout : (blockDrainLoop env s.BlockMap s.TransactionMap
      s.PendingTransactions s.PendingBlocks).req with
  | some r => rfl
  | none =>
    simp only
    rw [(kickOffNextTransaction_fields env _).2.2.1]

theorem kickOffNextBlock_uncommitted (env : Env) (s : St) :
    (kickOffNextBlock env s).1.UncommittedTransactions
      = s.UncommittedTransactions := by
  simp only [kickOffNextBlock]
  cases hout : (blockDrainLoop env s.BlockMap s.TransactionMap
      s.PendingTransactions s.PendingBlocks).req with
  | some r => rfl
  | none =>
    simp only
    rw [(kickOffNextTransaction_fields env _).2.2.2]

/-!
### The request content of action traces
-/

theorem requestsOf_append (a b : List Act) :
    requestsOf (a ++ b) = requestsOf a ++ requestsOf b := by
  unfold requestsOf
  rw [List.filterMap_append]

theorem requestsOf_sinkOps (l : List SinkOp) :
    requestsOf (l.map SinkOp.toAction) = [] := by
  induction l with
  | nil => rfl
  | cons op rest ih =>
    cases op with
    | stage t => simpa [requestsOf, SinkOp.toAction] using ih
    | commitB b => simpa [requestsOf, SinkOp.toAction] using ih

theorem requestsOf_clears : requestsOf clears5Acts = [] := rfl

theorem requestsOf_registers : requestsOf registers5Acts = [] := rfl

theorem requestsOf_finish (env : Env) (s : St) :
    requestsOf (finish env s).2 = [] := by
  unfold finish
  simp only
  rw [requestsOf_append, requestsOf_append, requestsOf_append]
  rw [requestsOf_sinkOps, requestsOf_clears]
  cases (applyUntilFail env.sinkFails 0 (commitItems s)).2 with
  | true => rfl
  | false => rfl

theorem mem_requestsOf (acts : List Act) (r : Request)
    (h : Act.send r ∈ acts) : r ∈ requestsOf acts := by
  unfold requestsOf
  exact List.mem_filterMap.mpr ⟨Act.send r, h, rfl⟩

theorem no_send_of_requestsOf_nil (acts : List Act) (r : Request)
    (h : requestsOf acts = []) : Act.send r ∉ acts := by
  intro hmem
  have := mem_requestsOf acts r hmem
  rw [h] at this
  simp at this

theorem finish_state (env : Env) (s : St) : (finish env s).1 = s := rfl

theorem handleUncommitted_sends (env : Env) (s : St) (r : Request)
    (h : Act.send r ∈ (handleUncommitted env s).2) :
    ∃ x, r = Request.txnBody x ∧ assocLookup env.TransactionStore x = none := by
  simp only [handleUncommitted] at h
  split at h
  · cases hp : (kickOffNextTransaction env
        { s with ProcessingUncommitted := true,
                 TransactionMap :=
                   insertPendingIds s.TransactionMap s.UncommittedTransactions,
                 PendingTransactions :=
                   s.PendingTransactions ++ s.UncommittedTransactions }).2 with
    | some r' =>
      rw [hp] at h
      simp only [List.mem_singleton, Act.send.injEq] at h
      subst h
      exact kickOffNextTransaction_req env _ _ hp
    | none =>
      rw [hp] at h
      simp only at h
      exact absurd h (no_send_of_requestsOf_nil _ r (requestsOf_finish env _))
  · exact absurd h (no_send_of_requestsOf_nil _ r (requestsOf_finish env s))

theorem handleUncommitted_req_count (env : Env) (s : St) :
    (requestsOf (handleUncommitted env s).2).length ≤ 1 := by
  simp only [handleUncommitted]
  split
  · cases hp : (kickOffNextTransaction env
        { s with ProcessingUncommitted := true,
                 TransactionMap :=
                   insertPendingIds s.TransactionMap s.UncommittedTransactions,
                 PendingTransactions :=
                   s.PendingTransactions ++ s.UncommittedTransactions }).2 with
    | some r' => simp [requestsOf]
    | none => rw [requestsOf_finish]; simp
  · rw [requestsOf_finish]; simp

theorem blocklistReplyHandler_nonempty (env : Env) (s : St) (idx : Nat)
    (ids : List Ident) (h : 0 < ids.length) :
    blocklistReplyHandler env s idx ids
      = ({ s with BlockMap := insertPendingIds s.BlockMap ids,
                  PendingBlocks := s.PendingBlocks ++ ids },
         [Act.send (Request.blockList (idx + ids.length))]) := by
  simp only [blocklistReplyHandler, if_pos h]

theorem txnlistReplyHandler_nonempty (env : Env) (s : St) (idx : Nat)
    (ids : List Ident) (h : 0 < ids.length) :
    txnlistReplyHandler env s idx ids
      = ({ s with UncommittedTransactions := s.UncommittedTransactions ++ ids },
         [Act.send (Request.txnList (idx + ids.length))]) := by
  simp only [txnlistReplyHandler, if_pos h]

theorem blocklistReplyHandler_empty_sends (env : Env) (s : St) (idx : Nat)
    (ids : List Ident) (r : Request) (hlen : ¬ 0 < ids.length)
    (h : Act.send r ∈ (blocklistReplyHandler env s idx ids).2) :
    (∃ x, r = Request.blockBody x ∧ assocLookup env.BlockStore x = none)
    ∨ (∃ x, r = Request.txnBody x ∧ assocLookup env.TransactionStore x = none)
    ∨ r = Request.txnList 0 := by
  simp only [blocklistReplyHandler, if_neg hlen] at h
  cases hp : (kickOffNextBlock env
      { s with BlockMap := insertPendingIds s.BlockMap ids,
               PendingBlocks := s.PendingBlocks ++ ids }).2 with
  | some r' =>
    rw [hp] at h
    simp only [List.mem_singleton, Act.send.injEq] at h
    subst h
    rcases kickOffNextBlock_req env _ _ hp with hb | ht
    · exact Or.inl hb
    · exact Or.inr (Or.inl ht)
  | none =>
    rw [hp] at h
    simp only [List.mem_singleton, Act.send.injEq] at h
    exact Or.inr (Or.inr h)

theorem txnlistReplyHandler_empty_sends (env : Env) (s : St) (idx : Nat)
    (ids : List Ident) (r : Request) (hlen : ¬ 0 < ids.length)
    (h : Act.send r ∈ (txnlistReplyHandler env s idx ids).2) :
    (∃ x, r = Request.blockBody x ∧ assocLookup env.BlockStore x = none)
    ∨ (∃ x, r = Request.txnBody x
         ∧ assocLookup env.TransactionStore x = none) := by
  simp only [txnlistReplyHandler, if_neg hlen] at h
  cases hp : (kickOffNextBlock env
      { s with UncommittedTransactions :=
                 s.UncommittedTransactions ++ ids }).2 with
  | some r' =>
    rw [hp] at h
    simp only [List.mem_singleton, Act.send.injEq] at h
    subst h
    exact kickOffNextBlock_req env _ _ hp
  | none =>
    rw [hp] at h
    simp only at h
    exact Or.inr (handleUncommitted_sends env _ r h)

theorem blockReplyHandler_sends (env : Env) (s : St) (blk : TransactionBlock)
    (r : Request) (h : Act.send r ∈ (blockReplyHandler env s blk).2) :
    (∃ x, r = Request.blockBody x ∧ assocLookup env.BlockStore x = none)
    ∨ (∃ x, r = Request.txnBody x
         ∧ assocLookup env.TransactionStore x = none) := by
  simp only [blockReplyHandler] at h
  cases hp : (kickOffNextTransaction env (blockReplyInsert s blk)).2 with
  | some r' =>
    rw [hp] at h
    simp only [List.mem_singleton, Act.send.injEq] at h
    subst h
    exact Or.inr (kickOffNextTransaction_req env _ _ hp)
  | none =>
    rw [hp] at h
    simp only at h
    cases hq : (kickOffNextBlock env
        (kickOffNextTransaction env (blockReplyInsert s blk)).1).2 with
    | some r' =>
      rw [hq] at h
      simp only [List.mem_singleton, Act.send.injEq] at h
      subst h
      exact kickOffNextBlock_req env _ _ hq
    | none =>
      rw [hq] at h
      simp only at h
      exact Or.inr (handleUncommitted_sends env _ r h)

theorem txnReplyHandler_sends (env : Env) (s : St) (t : Txn)
    (r : Request) (h : Act.send r ∈ (txnReplyHandler env s t).2) :
    (∃ x, r = Request.blockBody x ∧ assocLookup env.BlockStore x = none)
    ∨ (∃ x, r = Request.txnBody x
         ∧ assocLookup env.TransactionStore x = none) := by
  simp only [txnReplyHandler] at h
  cases hp : (kickOffNextTransaction env (txnReplyInsert s t)).2 with
  | some r' =>
    rw [hp] at h
    simp only [List.mem_singleton, Act.send.injEq] at h
    subst h
    exact Or.inr (kickOffNextTransaction_req env _ _ hp)
  | none =>
    rw [hp] at h
    simp only at h
    cases hq : (kickOffNextBlock env
        (kickOffNextTransaction env (txnReplyInsert s t)).1).2 with
    | some r' =>
      rw [hq] at h
      simp only [List.mem_singleton, Act.send.injEq] at h
      subst h
      exact kickOffNextBlock_req env _ _ hq
    | none =>
      rw [hq] at h
      simp only at h
      exact Or.inr (handleUncommitted_sends env _ r h)

theorem blocklistReplyHandler_req_count (env : Env) (s : St) (idx : Nat)
    (ids : List Ident) :
    (requestsOf (blocklistReplyHandler env s idx ids).2).length ≤ 1 := by
  simp only [blocklistReplyHandler]
  split
  · simp [requestsOf]
  · cases hp : (kickOffNextBlock env
        { s with BlockMap := insertPendingIds s.BlockMap ids,
                 PendingBlocks := s.PendingBlocks ++ ids }).2 with
    | some r => simp [requestsOf]
    | none => simp [requestsOf]

theorem txnlistReplyHandler_req_count (env : Env) (s : St) (idx : Nat)
    (ids : List Ident) :
    (requestsOf (txnlistReplyHandler env s idx ids).2).length ≤ 1 := by
  simp only [txnlistReplyHandler]
  split
  · simp [requestsOf]
  · cases hp : (kickOffNextBlock env
        { s with UncommittedTransactions :=
                   s.UncommittedTransactions ++ ids }).2 with
    | some r => simp [requestsOf]
    | none => exact handleUncommitted_req_count env _

theorem blockReplyHandler_req_count (env : Env) (s : St)
    (blk : TransactionBlock) :
    (requestsOf (blockReplyHandler env s blk).2).length ≤ 1 := by
  simp only [blockReplyHandler]
  cases hp : (kickOffNextTransaction env (blockReplyInsert s blk)).2 with
  | some r => simp [requestsOf]
  | none =>
    simp only
    cases hq : (kickOffNextBlock env
        (kickOffNextTransaction env (blockReplyInsert s blk)).1).2 with
    | some r => simp [requestsOf]
    | none => exact handleUncommitted_req_count env _

theorem txnReplyHandler_req_count (env : Env) (s : St) (t : Txn) :
    (requestsOf (txnReplyHandler env s t).2).length ≤ 1 := by
  simp only [txnReplyHandler]
  cases hp : (kickOffNextTransaction env (txnReplyInsert s t)).2 with
  | some r => simp [requestsOf]
  | none =>
    simp only
    cases hq : (kickOffNextBlock env
        (kickOffNextTransaction env (txnReplyInsert s t)).1).2 with
    | some r => simp [requestsOf]
    | none => exact handleUncommitted_req_count env _

theorem stepEvent_req_count (env : Env) (s : St) (e : Event) :
    (requestsOf (stepEvent env s e).2).length ≤ 1 := by
  cases e with
  | blockListReply idx ids => exact blocklistReplyHandler_req_count env s idx ids
  | blockReply blk => exact blockReplyHandler_req_count env s blk
  | txnListReply idx ids => exact txnlistReplyHandler_req_count env s idx ids
  | txnReply t => exact txnReplyHandler_req_count env s t

/-!
### The outstanding-request invariant
-/

theorem Out_catCount_le_total (o : Out) (c : Cat) : o.catCount c ≤ o.total := by
  cases c <;> simp [Out.catCount, Out.total] <;> omega

theorem Out_total_consume (o : Out) (c : Cat) (h : 1 ≤ o.catCount c) :
    (o.consume c).total = o.total - 1 := by
  cases c <;> simp [Out.catCount, Out.consume, Out.total] at * <;> omega

theorem Out_total_bump (o : Out) (c : Cat) : (o.bump c).total = o.total + 1 := by
  cases c <;> simp [Out.bump, Out.total] <;> omega

theorem Out_total_bumpAll (rs : List Request) :
    ∀ o : Out, (bumpAll o rs).total = o.total + rs.length := by
  induction rs with
  | nil => intro o; simp [bumpAll]
  | cons r rest ih =>
    intro o
    simp only [bumpAll, List.foldl_cons] at *
    rw [ih (o.bump (catOfReq r)), Out_total_bump]
    simp only [List.length_cons]
    omega

theorem runTrace_total_le (env : Env) (es : List Event) :
    ∀ (s : St) (o : Out) (s' : St) (o' : Out), o.total ≤ 1 →
      runTrace env s o es = some (s', o') → o'.total ≤ 1 := by
  induction es with
  | nil =>
    intro s o s' o' ho h
    simp only [runTrace, Option.some.injEq] at h
    cases h
    exact ho
  | cons e rest ih =>
    intro s o s' o' ho h
    simp only [runTrace] at h
    split at h
    · rename_i hc
      apply ih (stepEvent env s e).1 _ s' o' _ h
      rw [Out_total_bumpAll]
      have h1 : o.total = 1 := by
        have := Out_catCount_le_total o (catOfEvent e)
        omega
      rw [Out_total_consume o (catOfEvent e) hc, h1]
      have := stepEvent_req_count env s e
      omega
    · exact absurd h (by simp)

/-!
### The commit phase
-/

theorem applyUntilFail_nofail (fails : Nat → Bool) (h : ∀ j, fails j = false) :
    ∀ (items : List SinkOp) (k : Nat),
      applyUntilFail fails k items = (items, false) := by
  intro items
  induction items with
  | nil => intro k; rfl
  | cons op rest ih =>
    intro k
    simp only [applyUntilFail, h k, if_false, Bool.false_eq_true]
    rw [ih (k + 1)]

theorem applyUntilFail_failat (fails : Nat → Bool) :
    ∀ (items : List SinkOp) (i k : Nat), k < items.length →
      fails (i + k) = true → (∀ j, j < k → fails (i + j) = false) →
      applyUntilFail fails i items = (items.take k, true) := by
  intro items
  induction items with
  | nil => intro i k hk; simp at hk
  | cons op rest ih =>
    intro i k hk hf hb
    cases k with
    | zero =>
      rw [Nat.add_zero] at hf
      simp [applyUntilFail, hf]
    | succ k' =>
      have h0 : fails i = false := by
        have := hb 0 (Nat.succ_pos k')
        simpa using this
      simp only [applyUntilFail, h0, if_false, Bool.false_eq_true]
      have hrec : applyUntilFail fails (i + 1) rest = (rest.take k', true) := by
        apply ih (i + 1) k' (by simpa using hk)
        · rw [show i + 1 + k' = i + (k' + 1) by omega]
          exact hf
        · intro j hj
          rw [show i + 1 + j = i + (j + 1) by omega]
          exact hb (j + 1) (by omega)
      rw [hrec]
      simp [List.take]

theorem finish_nofail (env : Env) (s : St) (h : ∀ j, env.sinkFails j = false) :
    (finish env s).2 = (commitItems s).map SinkOp.toAction
      ++ clears5Acts ++ [Act.invokeCallback] := by
  simp only [finish]
  rw [applyUntilFail_nofail env.sinkFails h (commitItems s) 0]
  simp

theorem finish_failat (env : Env) (s : St) (k : Nat)
    (hk : k < (commitItems s).length) (hf : env.sinkFails k = true)
    (hb : ∀ j, j < k → env.sinkFails j = false) :
    (finish env s).2 = ((commitItems s).take k).map SinkOp.toAction
      ++ [Act.logError] ++ clears5Acts ++ [Act.invokeCallback] := by
  simp only [finish]
  rw [applyUntilFail_failat env.sinkFails (commitItems s) 0 k hk
    (by simpa using hf) (fun j hj => by simpa using hb j hj)]
  simp

/-!
### Pagination folds
-/

theorem runBlockPages_collect (env : Env) (pages : List (List Ident)) :
    ∀ (s : St) (idx : Nat), (∀ p ∈ pages, p ≠ []) →
      (runBlockPages env s idx pages).1.PendingBlocks
          = s.PendingBlocks ++ pages.flatten
      ∧ (runBlockPages env s idx pages).1.BlockMap
          = insertPendingIds s.BlockMap pages.flatten := by
  induction pages with
  | nil =>
    intro s idx _
    simp [runBlockPages, insertPendingIds_nil]
  | cons p ps ih =>
    intro s idx hne
    have hp : 0 < p.length :=
      List.length_pos.mpr (hne p (List.mem_cons_self p ps))
    simp only [runBlockPages]
    rw [blocklistReplyHandler_nonempty env s idx p hp]
    simp only
    rcases ih { s with BlockMap := insertPendingIds s.BlockMap p,
                       PendingBlocks := s.PendingBlocks ++ p }
        (idx + p.length) (fun q hq => hne q (List.mem_cons_of_mem p hq))
      with ⟨h1, h2⟩
    constructor
    · rw [h1]
      simp [List.append_assoc]
    · rw [h2]
      show insertPendingIds (insertPendingIds s.BlockMap p) ps.flatten
        = insertPendingIds s.BlockMap (p :: ps).flatten
      rw [List.flatten_cons, insertPendingIds_append]

theorem runTxnPages_collect (env : Env) (pages : List (List Ident)) :
    ∀ (s : St) (idx : Nat), (∀ p ∈ pages, p ≠ []) →
      (runTxnPages env s idx pages).1.UncommittedTransactions
        = s.UncommittedTransactions ++ pages.flatten := by
  induction pages with
  | nil =>
    intro s idx _
    simp [runTxnPages]
  | cons p ps ih =>
    intro s idx hne
    have hp : 0 < p.length :=
      List.length_pos.mpr (hne p (List.mem_cons_self p ps))
    simp only [runTxnPages]
    rw [txnlistReplyHandler_nonempty env s idx p hp]
    simp only
    rw [ih { s with UncommittedTransactions := s.UncommittedTransactions ++ p }
      (idx + p.length) (fun q hq => hne q (List.mem_cons_of_mem p hq))]
    simp [List.append_assoc]

/-!
### Drain priority
-/

theorem blockReplyHandler_blockreq (env : Env) (s : St) (blk : TransactionBlock)
    (x : Ident)
    (h : Act.send (Request.blockBody x) ∈ (blockReplyHandler env s blk).2) :
    (kickOffNextTransaction env (blockReplyInsert s blk)).2 = none := by
  cases hp : (kickOffNextTransaction env (blockReplyInsert s blk)).2 with
  | none => rfl
  | some r' =>
    simp only [blockReplyHandler] at h
    rw [hp] at h
    simp only [List.mem_singleton, Act.send.injEq] at h
    rcases kickOffNextTransaction_req env _ _ hp with ⟨y, hy, _⟩
    rw [hy] at h
    exact absurd h (by simp)

theorem txnReplyHandler_blockreq (env : Env) (s : St) (t : Txn)
    (x : Ident)
    (h : Act.send (Request.blockBody x) ∈ (txnReplyHandler env s t).2) :
    (kickOffNextTransaction env (txnReplyInsert s t)).2 = none := by
  cases hp : (kickOffNextTransaction env (txnReplyInsert s t)).2 with
  | none => rfl
  | some r' =>
    simp only [txnReplyHandler] at h
    rw [hp] at h
    simp only [List.mem_singleton, Act.send.injEq] at h
    rcases kickOffNextTransaction_req env _ _ hp with ⟨y, hy, _⟩
    rw [hy] at h
    exact absurd h (by simp)

/-!
### The uncommitted hand-off
-/

theorem handleUncommitted_skip (env : Env) (s : St)
    (h : s.ProcessingUncommitted = true ∨ s.UncommittedTransactions = []) :
    handleUncommitted env s = finish env s := by
  simp only [handleUncommitted]
  rw [if_neg]
  intro hcond
  rcases h with h | h
  · rw [h] at hcond
    exact absurd hcond.1 (by simp)
  · rw [h] at hcond
    exact absurd hcond.2 (by simp)

theorem handleUncommitted_then_state (env : Env) (s : St)
    (h1 : s.ProcessingUncommitted = false)
    (h2 : s.UncommittedTransactions ≠ []) :
    (handleUncommitted env s).1
      = (kickOffNextTransaction env
          { s with ProcessingUncommitted := true,
                   TransactionMap :=
                     insertPendingIds s.TransactionMap s.UncommittedTransactions,
                   PendingTransactions :=
                     s.PendingTransactions ++ s.UncommittedTransactions }).1 := by
  simp only [handleUncommitted]
  rw [if_pos ⟨h1, List.length_pos.mpr h2⟩]
  cases hp : (kickOffNextTransaction env
      { s with ProcessingUncommitted := true,
               TransactionMap :=
                 insertPendingIds s.TransactionMap s.UncommittedTransactions,
               PendingTransactions :=
                 s.PendingTransactions ++ s.UncommittedTransactions }).2 with
  | some r => rfl
  | none => rfl

/-!
### The claims
-/

/-- C1: in the commit phase (`_finish`), when no submission raises, the
application order to the journal equals discovery (insertion) order: every
entry of the transaction `OrderedDict` is submitted as a pending
transaction (insertion order, `build_block=False`) before any block is
submitted, and then every entry of the block `OrderedDict` is committed in
insertion order; afterwards the five handlers are cleared and the callback
is invoked. -/
theorem commit_order_spec (env : Env) (s : St)
    (h : ∀ j, env.sinkFails j = false) :
    (finish env s).2
      = (s.TransactionMap.map (fun p => Act.stageTxn p.2 false)
          ++ s.BlockMap.map (fun p => Act.commitBlock p.2))
        ++ clears5Acts ++ [Act.invokeCallback] := by
  rw [finish_nofail env s h]
  simp only [commitItems, List.map_append, List.map_map]
  rfl

theorem commit_order_witness :
    (finish envW stW).2
      = (stW.TransactionMap.map (fun p => Act.stageTxn p.2 false)
          ++ stW.BlockMap.map (fun p => Act.commitBlock p.2))
        ++ clears5Acts ++ [Act.invokeCallback] :=
  commit_order_spec envW stW (fun _ => rfl)

/-- C2: if the submission at 0-based index `k` (the `K = k + 1`-st
submission) of the commit phase raises while all earlier ones succeed, the
applied journal operations are exactly the first `k` items (the remaining
transactions and all not-yet-committed blocks are never attempted), the
error is logged and swallowed, all five message handlers are cleared, and
the completion callback is still invoked. -/
theorem commit_abandon_spec (env : Env) (s : St) (k : Nat)
    (hk : k < (commitItems s).length)
    (hf : env.sinkFails k = true)
    (hb : ∀ j, j < k → env.sinkFails j = false) :
    (finish env s).2
      = ((commitItems s).take k).map SinkOp.toAction
        ++ [Act.logError] ++ clears5Acts ++ [Act.invokeCallback] :=
  finish_failat env s k hk hf hb

theorem commit_abandon_witness :
    (finish envFail1 st3txn).2
      = ((commitItems st3txn).take 1).map SinkOp.toAction
        ++ [Act.logError] ++ clears5Acts ++ [Act.invokeCallback] :=
  commit_abandon_spec envFail1 st3txn 1 (by decide) (by decide) (by decide)

/-- C3, counterexample: the claim "when an identifier already present in
the map is referenced again, the map entry and the corresponding
PendingQueue are left unchanged" fails on the code.  In `stW` the block
`b1` is already resolved (`BlockMap["b1"] = blkB1`); a later block-list
page containing `b1` resets the entry to pending (`None`) and appends a
duplicate `b1` to `PendingBlocks`. -/
theorem discovery_insert_claim_false :
    (blocklistReplyHandler envW stW 2 ["b1"]).1.BlockMap ≠ stW.BlockMap
    ∧ (blocklistReplyHandler envW stW 2 ["b1"]).1.PendingBlocks
        ≠ stW.PendingBlocks := by
  decide

/-- C3, amended: each identifier occupies at most one key of its
DiscoveryMap — a repeated reference never duplicates a key, and existing
keys keep their positions (the key list is only ever extended at the
tail); but a repeated reference is not a no-op: the discovery-insertion
loop resets the entry's value to pending (`none`) and the handler appends
the identifier to the PendingQueue again. -/
theorem discovery_insert_amended (V : Type) (m : DMap V) (ids : List Ident)
    (env : Env) (s : St) (idx : Nat)
    (h : (odKeys m).Nodup) (hlen : 0 < ids.length) :
    (odKeys (insertPendingIds m ids)).Nodup
    ∧ (∃ t, odKeys (insertPendingIds m ids) = odKeys m ++ t)
    ∧ (∀ i ∈ ids, assocLookup (insertPendingIds m ids) i = some none)
    ∧ (blocklistReplyHandler env s idx ids).1.PendingBlocks
        = s.PendingBlocks ++ ids := by
  refine ⟨nodup_odKeys_insertPendingIds ids m h,
    odKeys_insertPendingIds_extends ids m,
    fun i hi => assocLookup_insertPendingIds_mem ids m i hi, ?_⟩
  rw [blocklistReplyHandler_nonempty env s idx ids hlen]

theorem discovery_insert_amended_witness :
    (odKeys (insertPendingIds stW.BlockMap ["b1"])).Nodup
    ∧ (∃ t, odKeys (insertPendingIds stW.BlockMap ["b1"])
         = odKeys stW.BlockMap ++ t)
    ∧ (∀ i ∈ ["b1"],
         assocLookup (insertPendingIds stW.BlockMap ["b1"]) i = some none)
    ∧ (blocklistReplyHandler envW stW 2 ["b1"]).1.PendingBlocks
        = stW.PendingBlocks ++ ["b1"] :=
  discovery_insert_amended TransactionBlock stW.BlockMap ["b1"] envW stW 2
    (by decide) (by decide)

/-- C4: at most one fetch request is outstanding per category at any
instant.  (1) Processing any single reply event emits at most one request
message of any kind, and each drain function materializes at most one
request (its `Option Request` result) before returning.  (2) Along any
valid session trace — where a reply event of a category is deliverable
only while a request of that category is outstanding — if at most one
request is outstanding initially, then at most one request (over all
categories, hence per category) is outstanding after every step. -/
theorem single_inflight_spec :
    (∀ (env : Env) (s : St) (e : Event),
       (requestsOf (stepEvent env s e).2).length ≤ 1)
    ∧ (∀ (env : Env) (es : List Event) (s : St) (o : Out) (s' : St)
         (o' : Out), o.total ≤ 1 → runTrace env s o es = some (s', o') →
         o'.total ≤ 1) :=
  ⟨fun env s e => stepEvent_req_count env s e,
   fun env es s o s' o' => runTrace_total_le env es s o s' o'⟩

theorem single_inflight_witness :
    (requestsOf (stepEvent envW freshSession
        (Event.blockListReply 0 [])).2).length ≤ 1
    ∧ (Out.mk 0 0 1 0).total ≤ 1 :=
  ⟨single_inflight_spec.1 envW freshSession (Event.blockListReply 0 []),
   single_inflight_spec.2 envW [Event.blockListReply 0 []] freshSession
     (Out.mk 1 0 0 0) freshSession (Out.mk 0 0 1 0) (by decide) (by decide)⟩

/-- C5: an identifier popped from a pending queue that is present in the
local store is resolved locally: any request the drain sends names an
identifier missing from the store (so no fetch is ever sent for a
locally present identifier), the locally present popped identifiers get
their store records copied into the DiscoveryMap, and (for a block) the
constituent transaction ids of the locally popped blocks are appended in
order to the transaction DiscoveryMap and PendingQueue. -/
theorem dedup_local_resolve_spec (env : Env) (s : St) :
    (s.PendingTransactions
        = txnDrainPopped env s.PendingTransactions
          ++ (kickOffNextTransaction env s).1.PendingTransactions)
    ∧ (∀ r, (kickOffNextTransaction env s).2 = some r →
         ∃ x, r = Request.txnBody x
           ∧ assocLookup env.TransactionStore x = none)
    ∧ (∀ x t, x ∈ txnDrainPopped env s.PendingTransactions →
         assocLookup env.TransactionStore x = some t →
         assocLookup (kickOffNextTransaction env s).1.TransactionMap x
           = some (some t))
    ∧ (s.PendingBlocks
        = blockDrainPopped env s.PendingBlocks
          ++ (blockDrainLoop env s.BlockMap s.TransactionMap
              s.PendingTransactions s.PendingBlocks).pendB)
    ∧ (∀ r, (blockDrainLoop env s.BlockMap s.TransactionMap
              s.PendingTransactions s.PendingBlocks).req = some r →
         ∃ x, r = Request.blockBody x ∧ assocLookup env.BlockStore x = none)
    ∧ (∀ x blk, x ∈ blockDrainPopped env s.PendingBlocks →
         assocLookup env.BlockStore x = some blk →
         assocLookup (blockDrainLoop env s.BlockMap s.TransactionMap
             s.PendingTransactions s.PendingBlocks).bm x = some (some blk))
    ∧ ((blockDrainLoop env s.BlockMap s.TransactionMap s.PendingTransactions
          s.PendingBlocks).pendT
        = s.PendingTransactions ++ blockDrainTxns env s.PendingBlocks)
    ∧ ((blockDrainLoop env s.BlockMap s.TransactionMap s.PendingTransactions
          s.PendingBlocks).tm
        = insertPendingIds s.TransactionMap
            (blockDrainTxns env s.PendingBlocks)) :=
  ⟨txnDrainLoop_popped env s.PendingTransactions s.TransactionMap,
   fun r hr => txnDrainLoop_req env s.PendingTransactions s.TransactionMap r hr,
   fun x t hx ht =>
     txnDrainLoop_copied env s.PendingTransactions s.TransactionMap x t hx ht,
   blockDrainLoop_popped env s.PendingBlocks s.BlockMap s.TransactionMap
     s.PendingTransactions,
   fun r hr => blockDrainLoop_req env s.PendingBlocks s.BlockMap
     s.TransactionMap s.PendingTransactions r hr,
   fun x blk hx hb => blockDrainLoop_bm_copied env s.PendingBlocks s.BlockMap
     s.TransactionMap s.PendingTransactions x blk hx hb,
   blockDrainLoop_pendT env s.PendingBlocks s.BlockMap s.TransactionMap
     s.PendingTransactions,
   blockDrainLoop_tm env s.PendingBlocks s.BlockMap s.TransactionMap
     s.PendingTransactions⟩

theorem dedup_local_resolve_witness :
    stDedup.PendingTransactions
        = txnDrainPopped envW stDedup.PendingTransactions
          ++ (kickOffNextTransaction envW stDedup).1.PendingTransactions
    ∧ (∃ x, Request.txnBody "tX" = Request.txnBody x
         ∧ assocLookup envW.TransactionStore x = none)
    ∧ assocLookup (kickOffNextTransaction envW stDedup).1.TransactionMap "t1"
        = some (some txnT1)
    ∧ (∃ x, Request.blockBody "bX" = Request.blockBody x
         ∧ assocLookup envW.BlockStore x = none)
    ∧ assocLookup (blockDrainLoop envW stDedup.BlockMap stDedup.TransactionMap
          stDedup.PendingTransactions stDedup.PendingBlocks).bm "b1"
        = some (some blkB1)
    ∧ (blockDrainLoop envW stDedup.BlockMap stDedup.TransactionMap
          stDedup.PendingTransactions stDedup.PendingBlocks).pendT
        = stDedup.PendingTransactions ++ blockDrainTxns envW stDedup.PendingBlocks :=
  ⟨(dedup_local_resolve_spec envW stDedup).1,
   (dedup_local_resolve_spec envW stDedup).2.1 (Request.txnBody "tX")
     (by decide),
   (dedup_local_resolve_spec envW stDedup).2.2.1 "t1" txnT1 (by decide)
     (by decide),
   (dedup_local_resolve_spec envW stDedup).2.2.2.2.1 (Request.blockBody "bX")
     (by decide),
   (dedup_local_resolve_spec envW stDedup).2.2.2.2.2.1 "b1" blkB1 (by decide)
     (by decide),
   (dedup_local_resolve_spec envW stDedup).2.2.2.2.2.2.1⟩

/-- C6: for both paginated lists, a non-empty reply page appends its ids
in order and sends exactly one next-page request at offset
`reply offset + count`; an empty page sends no further page request of
that list; and over any sequence of non-empty pages the collected count
equals the sum of the page lengths. -/
theorem pagination_spec (env : Env) (s : St) (idx : Nat) (ids : List Ident)
    (pages : List (List Ident)) :
    (0 < ids.length →
       blocklistReplyHandler env s idx ids
         = ({ s with BlockMap := insertPendingIds s.BlockMap ids,
                     PendingBlocks := s.PendingBlocks ++ ids },
            [Act.send (Request.blockList (idx + ids.length))]))
    ∧ (0 < ids.length →
       txnlistReplyHandler env s idx ids
         = ({ s with UncommittedTransactions :=
                       s.UncommittedTransactions ++ ids },
            [Act.send (Request.txnList (idx + ids.length))]))
    ∧ (∀ n, Act.send (Request.blockList n)
         ∉ (blocklistReplyHandler env s idx []).2)
    ∧ (∀ n, Act.send (Request.txnList n)
         ∉ (txnlistReplyHandler env s idx []).2)
    ∧ ((∀ p ∈ pages, p ≠ []) →
       (runBlockPages env s idx pages).1.PendingBlocks
           = s.PendingBlocks ++ pages.flatten
       ∧ (runBlockPages env s idx pages).1.PendingBlocks.length
           = s.PendingBlocks.length + (pages.map List.length).sum
       ∧ (runTxnPages env s idx pages).1.UncommittedTransactions
           = s.UncommittedTransactions ++ pages.flatten) := by
  refine ⟨fun h => blocklistReplyHandler_nonempty env s idx ids h,
    fun h => txnlistReplyHandler_nonempty env s idx ids h, ?_, ?_, ?_⟩
  · intro n hmem
    rcases blocklistReplyHandler_empty_sends env s idx [] _ (by simp) hmem with
      ⟨x, hx, _⟩ | ⟨x, hx, _⟩ | hx
    · exact absurd hx (by simp)
    · exact absurd hx (by simp)
    · exact absurd hx (by simp)
  · intro n hmem
    rcases txnlistReplyHandler_empty_sends env s idx [] _ (by simp) hmem with
      ⟨x, hx, _⟩ | ⟨x, hx, _⟩
    · exact absurd hx (by simp)
    · exact absurd hx (by simp)
  · intro hne
    rcases runBlockPages_collect env pages s idx hne with ⟨h1, h2⟩
    refine ⟨h1, ?_, runTxnPages_collect env pages s idx hne⟩
    rw [h1]
    simp [List.length_append, List.length_flatten]

theorem pagination_witness :
    (blocklistReplyHandler envW freshSession 0 ["b1", "bX"]
       = ({ freshSession with
              BlockMap := insertPendingIds freshSession.BlockMap ["b1", "bX"],
              PendingBlocks := freshSession.PendingBlocks ++ ["b1", "bX"] },
          [Act.send (Request.blockList (0 + (["b1", "bX"] : List Ident).length))]))
    ∧ (txnlistReplyHandler envW freshSession 0 ["t1"]
       = ({ freshSession with
              UncommittedTransactions :=
                freshSession.UncommittedTransactions ++ ["t1"] },
          [Act.send (Request.txnList (0 + (["t1"] : List Ident).length))]))
    ∧ Act.send (Request.blockList 7)
        ∉ (blocklistReplyHandler envW freshSession 2 []).2
    ∧ Act.send (Request.txnList 7)
        ∉ (txnlistReplyHandler envW freshSession 2 []).2
    ∧ (runBlockPages envW freshSession 0 [["b1"], ["bX"]]).1.PendingBlocks.length
        = freshSession.PendingBlocks.length
          + (([["b1"], ["bX"]] : List (List Ident)).map List.length).sum :=
  ⟨(pagination_spec envW freshSession 0 ["b1", "bX"] []).1 (by decide),
   (pagination_spec envW freshSession 0 ["t1"] []).2.1 (by decide),
   (pagination_spec envW freshSession 2 [] []).2.2.1 7,
   (pagination_spec envW freshSession 2 [] []).2.2.2.1 7,
   ((pagination_spec envW freshSession 0 [] [["b1"], ["bX"]]).2.2.2.2
     (by decide)).2.1⟩

/-- C7: in the block-body and transaction-body reply handlers, the
transaction drain is attempted before the block drain — a block fetch is
emitted only if the transaction drain (run first, on the state after the
reply's insertion) sent nothing and left the transaction queue empty.
Conversely `_kick_off_next_block` (used by the two list-exhaustion
events) tries the block queue first: it emits a transaction fetch only
once the block queue is exhausted. -/
theorem drain_priority_spec (env : Env) (s : St) (blk : TransactionBlock)
    (t : Txn) (x : Ident) :
    (Act.send (Request.blockBody x) ∈ (blockReplyHandler env s blk).2 →
       (kickOffNextTransaction env (blockReplyInsert s blk)).2 = none
       ∧ (kickOffNextTransaction env
            (blockReplyInsert s blk)).1.PendingTransactions = [])
    ∧ (Act.send (Request.blockBody x) ∈ (txnReplyHandler env s t).2 →
       (kickOffNextTransaction env (txnReplyInsert s t)).2 = none
       ∧ (kickOffNextTransaction env
            (txnReplyInsert s t)).1.PendingTransactions = [])
    ∧ ((kickOffNextBlock env s).2 = some (Request.txnBody x) →
       (kickOffNextBlock env s).1.PendingBlocks = []) := by
  refine ⟨fun h => ?_, fun h => ?_, fun h => kickOffNextBlock_txnreq env s x h⟩
  · have hn := blockReplyHandler_blockreq env s blk x h
    exact ⟨hn, kickOffNextTransaction_none_pend env _ hn⟩
  · have hn := txnReplyHandler_blockreq env s t x h
    exact ⟨hn, kickOffNextTransaction_none_pend env _ hn⟩

theorem drain_priority_witness :
    ((kickOffNextTransaction envW (blockReplyInsert stC7 blkB1)).2 = none
       ∧ (kickOffNextTransaction envW
            (blockReplyInsert stC7 blkB1)).1.PendingTransactions = [])
    ∧ ((kickOffNextTransaction envW (txnReplyInsert stC7t txnT2)).2 = none
       ∧ (kickOffNextTransaction envW
            (txnReplyInsert stC7t txnT2)).1.PendingTransactions = [])
    ∧ (kickOffNextBlock envW stC7b).1.PendingBlocks = [] :=
  ⟨(drain_priority_spec envW stC7 blkB1 txnT2 "bX").1 (by decide),
   (drain_priority_spec envW stC7t blkB1 txnT2 "bX").2.1 (by decide),
   (drain_priority_spec envW stC7b blkB1 txnT2 "tX").2.2 (by decide)⟩

/-- C8: `_failedhandler` clears all five registered message handlers and
schedules a full restart (`initiate_journal_transfer`) after a fixed
10-unit delay; the restart re-runs peer selection and rebuilds every piece
of session state empty/false (both DiscoveryMaps, both PendingQueues, the
uncommitted list, and the uncommitted-processing flag), so no partial
state from the failed attempt is carried into the retry. -/
theorem failure_restart_spec (env : Env) (s : St)
    (choice : List Ident → Ident) (h : env.peers ≠ []) :
    failedHandler s = (s, clears5Acts ++ [Act.scheduleRetry 10])
    ∧ initiateJournalTransfer env choice
        = (some (choice env.peers, freshSession),
           registers5Acts ++ [Act.send (Request.blockList 0)])
    ∧ freshSession.BlockMap = [] ∧ freshSession.PendingBlocks = []
    ∧ freshSession.TransactionMap = []
    ∧ freshSession.PendingTransactions = []
    ∧ freshSession.ProcessingUncommitted = false
    ∧ freshSession.UncommittedTransactions = [] := by
  refine ⟨rfl, ?_, rfl, rfl, rfl, rfl, rfl, rfl⟩
  simp only [initiateJournalTransfer]
  rw [if_neg (fun hlen => h (List.length_eq_zero.mp hlen))]

theorem failure_restart_witness :
    failedHandler stW = (stW, clears5Acts ++ [Act.scheduleRetry 10])
    ∧ initiateJournalTransfer envW (fun _ => "p1")
        = (some ("p1", freshSession),
           registers5Acts ++ [Act.send (Request.blockList 0)])
    ∧ freshSession.ProcessingUncommitted = false :=
  ⟨(failure_restart_spec envW stW (fun _ => "p1") (by decide)).1,
   (failure_restart_spec envW stW (fun _ => "p1") (by decide)).2.1,
   (failure_restart_spec envW stW (fun _ => "p1") (by decide)).2.2.2.2.2.2.1⟩

/-- C9: when `_handleuncommitted` runs with a non-empty collected
uncommitted list and processing not already begun, it sets the flag,
inserts every uncommitted id into the transaction DiscoveryMap (the key
stays present afterwards) and appends them to the PendingQueue, then
resumes the transaction drain (so any request it emits is a transaction
fetch for a locally missing id, and the final queue is a suffix of the
enqueued one); if the list is empty or processing has begun, it proceeds
directly to the commit phase (`_finish`). -/
theorem uncommitted_handoff_spec (env : Env) (s : St) :
    ((s.ProcessingUncommitted = true ∨ s.UncommittedTransactions = []) →
       handleUncommitted env s = finish env s)
    ∧ (s.ProcessingUncommitted = false → s.UncommittedTransactions ≠ [] →
       (handleUncommitted env s).1.ProcessingUncommitted = true
       ∧ (∀ i ∈ s.UncommittedTransactions,
            (assocLookup (handleUncommitted env s).1.TransactionMap i).isSome)
       ∧ (∃ popped, s.PendingTransactions ++ s.UncommittedTransactions
            = popped ++ (handleUncommitted env s).1.PendingTransactions))
    ∧ (∀ r, Act.send r ∈ (handleUncommitted env s).2 →
        ∃ x, r = Request.txnBody x
          ∧ assocLookup env.TransactionStore x = none) := by
  refine ⟨fun h => handleUncommitted_skip env s h, fun h1 h2 => ?_,
    fun r hr => handleUncommitted_sends env s r hr⟩
  rw [handleUncommitted_then_state env s h1 h2]
  refine ⟨?_, ?_, ?_⟩
  · rw [(kickOffNextTransaction_fields env _).2.2.1]
  · intro i hi
    have hbase : assocLookup
        (insertPendingIds s.TransactionMap s.UncommittedTransactions) i
          = some none :=
      assocLookup_insertPendingIds_mem s.UncommittedTransactions
        s.TransactionMap i hi
    exact txnDrainLoop_isSome env
      (s.PendingTransactions ++ s.UncommittedTransactions)
      (insertPendingIds s.TransactionMap s.UncommittedTransactions) i
      (by rw [hbase]; rfl)
  · exact ⟨txnDrainPopped env
      (s.PendingTransactions ++ s.UncommittedTransactions),
      txnDrainLoop_popped env
        (s.PendingTransactions ++ s.UncommittedTransactions)
        (insertPendingIds s.TransactionMap s.UncommittedTransactions)⟩

theorem uncommitted_handoff_witness :
    handleUncommitted envW stW = finish envW stW
    ∧ (handleUncommitted envW stC9).1.ProcessingUncommitted = true
    ∧ (∀ i ∈ stC9.UncommittedTransactions,
         (assocLookup (handleUncommitted envW stC9).1.TransactionMap i).isSome)
    ∧ (∃ popped, stC9.PendingTransactions ++ stC9.UncommittedTransactions
         = popped ++ (handleUncommitted envW stC9).1.PendingTransactions) :=
  ⟨(uncommitted_handoff_spec envW stW).1 (Or.inr rfl),
   ((uncommitted_handoff_spec envW stC9).2.1 rfl (by decide)).1,
   ((uncommitted_handoff_spec envW stC9).2.1 rfl (by decide)).2.1,
   ((uncommitted_handoff_spec envW stC9).2.1 rfl (by decide)).2.2⟩

/-- C10: `start_journal_transfer` in restore mode with more than one
persisted global-store key returns `False` with no session, no handler
registration, no message and no callback; in every other case it
constructs a session via `initiate_journal_transfer` and returns
`True`. -/
theorem start_transfer_spec (env : Env) (choice : List Ident → Ident) :
    (env.Restore = true → 1 < env.persistKeys.length →
       startJournalTransfer env choice = (false, none, []))
    ∧ (¬ (env.Restore = true ∧ 1 < env.persistKeys.length) →
       startJournalTransfer env choice
         = (true, (initiateJournalTransfer env choice).1,
            (initiateJournalTransfer env choice).2)) := by
  constructor
  · intro h1 h2
    simp only [startJournalTransfer]
    rw [if_pos ⟨h1, h2⟩]
  · intro h
    simp only [startJournalTransfer]
    rw [if_neg h]

theorem start_transfer_witness :
    startJournalTransfer envRestore (fun _ => "p1") = (false, none, [])
    ∧ startJournalTransfer envW (fun _ => "p1")
        = (true, (initiateJournalTransfer envW (fun _ => "p1")).1,
           (initiateJournalTransfer envW (fun _ => "p1")).2) :=
  ⟨(start_transfer_spec envRestore (fun _ => "p1")).1 (by decide) (by decide),
   (start_transfer_spec envW (fun _ => "p1")).2 (by decide)⟩
